import Mathlib

set_option maxRecDepth 100000

/-!
Shallow embedding of the coraxbotmax repository core logic:
  - `app.py` / `validate_max_init_data` (Max WebApp initData HMAC validation),
  - `utils.py` / `parse_flavor`, `parse_subnet`,
  - `bot.py` duplicates of `parse_flavor`, `parse_subnet`.
Python machine-level operations (SHA-256, HMAC, URL query parsing,
`ipaddress` CIDR parsing, `json.dumps`) are modelled as executable Lean
functions over `Nat` byte lists and `List Char`.  Python's `re`/`int`
character classes are modelled over the ASCII subset of the Unicode
classes that the source actually exercises.
-/

namespace Corax

/-! ### Basic character and list helpers -/

def isAsciiDigit (c : Char) : Bool := 48 ≤ c.toNat && c.toNat ≤ 57

/-- Whitespace characters of Python's regex class `\s` (ASCII subset). -/
def isPySpace (c : Char) : Bool :=
  c = ' ' || c = '\t' || c = '\n' || c = '\x0d' || c.toNat = 11 || c.toNat = 12

def digitVal (c : Char) : Nat := c.toNat - 48

def digitsToNat (cs : List Char) : Nat :=
  cs.foldl (fun acc c => acc * 10 + digitVal c) 0

def digitChar (n : Nat) : Char := Char.ofNat (48 + n % 10)

def natToStrGo : Nat → Nat → List Char
  | 0, _ => []
  | fuel+1, n => if n < 10 then [digitChar n] else natToStrGo fuel (n / 10) ++ [digitChar (n % 10)]

/-- Decimal rendering of a natural number (model of Python `str(int)`). -/
def natToStr (n : Nat) : String := String.mk (natToStrGo (n + 1) n)

/-- Splits a character list on a separator character; mirrors Python `str.split(sep)`
(always returns at least one field, empty fields preserved). -/
def splitOnChar (sep : Char) : List Char → List (List Char)
  | [] => [[]]
  | c :: rest =>
    let r := splitOnChar sep rest
    if c = sep then [] :: r
    else
      match r with
      | x :: xs => (c :: x) :: xs
      | [] => [[c]]

/-- Splits at the first occurrence of `sep`, mirroring Python `str.split(sep, 1)`
when the separator occurs; returns `none` when `sep` is absent. -/
def splitFirst (sep : Char) : List Char → Option (List Char × List Char)
  | [] => none
  | c :: rest =>
    if c = sep then some ([], rest)
    else
      match splitFirst sep rest with
      | none => none
      | some (a, b) => some (c :: a, b)

def hexDigitChar (n : Nat) : Char :=
  if n < 10 then Char.ofNat (48 + n) else Char.ofNat (87 + n % 16)

/-- Lowercase hexadecimal rendering of a byte list (model of `bytes.hex()` /
`hexdigest()`). -/
def hexLower (bs : List Nat) : String :=
  String.mk ((bs.map (fun b => [hexDigitChar (b / 16 % 16), hexDigitChar (b % 16)])).flatten)

def hex4 (n : Nat) : String :=
  String.mk [hexDigitChar (n / 4096 % 16), hexDigitChar (n / 256 % 16),
             hexDigitChar (n / 16 % 16), hexDigitChar (n % 16)]

/-! ### UTF-8 encoding (model of Python `str.encode()`) -/

def utf8EncodeChar (c : Char) : List Nat :=
  let n := c.toNat
  if n < 128 then [n]
  else if n < 2048 then [192 + n / 64, 128 + n % 64]
  else if n < 65536 then [224 + n / 4096, 128 + n / 64 % 64, 128 + n % 64]
  else [240 + n / 262144, 128 + n / 4096 % 64, 128 + n / 64 % 64, 128 + n % 64]

def utf8Bytes (s : String) : List Nat := (s.data.map utf8EncodeChar).flatten

/-! ### SHA-256 (model of `hashlib.sha256`) -/

def w32 (n : Nat) : Nat := n % 4294967296

def rotr (n x : Nat) : Nat := w32 ((x >>> n) ||| (x <<< (32 - n)))

def shaCh (x y z : Nat) : Nat := (x &&& y) ^^^ ((4294967295 ^^^ x) &&& z)

def shaMaj (x y z : Nat) : Nat := (x &&& y) ^^^ (x &&& z) ^^^ (y &&& z)

def bigSigma0 (x : Nat) : Nat := rotr 2 x ^^^ rotr 13 x ^^^ rotr 22 x

def bigSigma1 (x : Nat) : Nat := rotr 6 x ^^^ rotr 11 x ^^^ rotr 25 x

def smallSigma0 (x : Nat) : Nat := rotr 7 x ^^^ rotr 18 x ^^^ (x >>> 3)

def smallSigma1 (x : Nat) : Nat := rotr 17 x ^^^ rotr 19 x ^^^ (x >>> 10)

def shaK : List Nat :=
  [1116352408, 1899447441, 3049323471, 3921009573, 961987163, 1508970993,
   2453635748, 2870763221, 3624381080, 310598401, 607225278, 1426881987,
   1925078388, 2162078206, 2614888103, 3248222580, 3835390401, 4022224774,
   264347078, 604807628, 770255983, 1249150122, 1555081692, 1996064986,
   2554220882, 2821834349, 2952996808, 3210313671, 3336571891, 3584528711,
   113926993, 338241895, 666307205, 773529912, 1294757372, 1396182291,
   1695183700, 1986661051, 2177026350, 2456956037, 2730485921, 2820302411,
   3259730800, 3345764771, 3516065817, 3600352804, 4094571909, 275423344,
   430227734, 506948616, 659060556, 883997877, 958139571, 1322822218,
   1537002063, 1747873779, 1955562222, 2024104815, 2227730452, 2361852424,
   2428436474, 2756734187, 3204031479, 3329325298]

def shaH0 : List Nat :=
  [1779033703, 3144134277, 1013904242, 2773480762,
   1359893119, 2600822924, 528734635, 1541459225]

/-- Big-endian byte decomposition (`n` bytes) of a natural number. -/
def toBytesBE (n x : Nat) : List Nat :=
  (List.range n).map (fun i => (x >>> (8 * (n - 1 - i))) % 256)

def bytesToWordsBE : List Nat → List Nat
  | b0 :: b1 :: b2 :: b3 :: rest => (b0 * 16777216 + b1 * 65536 + b2 * 256 + b3) :: bytesToWordsBE rest
  | _ => []

/-- Expands the 16-word block to the 64-word SHA-256 message schedule. -/
def shaSchedule (w : List Nat) : List Nat :=
  (List.range 48).foldl
    (fun w i =>
      w ++ [w32 (smallSigma1 (w.getD (i + 14) 0) + w.getD (i + 9) 0 +
                 smallSigma0 (w.getD (i + 1) 0) + w.getD i 0)])
    w

def shaRound (wsched : List Nat) (st : List Nat) (t : Nat) : List Nat :=
  match st with
  | [a, b, c, d, e, f, g, h] =>
    let T1 := w32 (h + bigSigma1 e + shaCh e f g + shaK.getD t 0 + wsched.getD t 0)
    let T2 := w32 (bigSigma0 a + shaMaj a b c)
    [w32 (T1 + T2), a, b, c, w32 (d + T1), e, f, g]
  | st => st

/-- Compresses one 64-byte chunk into the running hash state. -/
def shaCompress (H : List Nat) (chunk : List Nat) : List Nat :=
  let wsched := shaSchedule (bytesToWordsBE chunk)
  let st := (List.range 64).foldl (shaRound wsched) H
  List.zipWith (fun a b => w32 (a + b)) st H

def shaPad (msg : List Nat) : List Nat :=
  let L := msg.length
  msg ++ [128] ++ List.replicate ((119 - L % 64) % 64) 0 ++ toBytesBE 8 (8 * L)

def toChunksGo : Nat → List Nat → List (List Nat)
  | 0, _ => []
  | _, [] => []
  | fuel+1, l => l.take 64 :: toChunksGo fuel (l.drop 64)

def toChunks (l : List Nat) : List (List Nat) := toChunksGo l.length l

/-- SHA-256 of a byte list, as a 32-byte list. -/
def sha256 (msg : List Nat) : List Nat :=
  (((toChunks (shaPad msg)).foldl shaCompress shaH0).map (toBytesBE 4)).flatten

/-! ### HMAC-SHA256 (model of `hmac.new(key, msg, hashlib.sha256)`) -/

def hmacSha256 (key msg : List Nat) : List Nat :=
  let k0 := if 64 < key.length then sha256 key else key
  let kp := k0 ++ List.replicate (64 - k0.length) 0
  let ipadK := kp.map (fun b => b ^^^ 54)
  let opadK := kp.map (fun b => b ^^^ 92)
  sha256 (opadK ++ sha256 (ipadK ++ msg))

/-! ### UTF-8 decoding with the `replace` error handler
(model of `bytes.decode('utf-8', errors='replace')`): each maximal subpart of
an ill-formed sequence is replaced by a single U+FFFD. -/

def replChar : Char := Char.ofNat 65533

def isCont (b : Nat) : Bool := 128 ≤ b && b ≤ 191

/-- Decodes the first scalar value (or replacement) of a byte list, returning
the character together with the bytes not yet consumed. -/
def utf8Step (b : Nat) (rest : List Nat) : Char × List Nat :=
  if b < 128 then (Char.ofNat b, rest)
  else if 194 ≤ b && b ≤ 223 then
    match rest with
    | b2 :: r2 => if isCont b2 then (Char.ofNat ((b - 192) * 64 + (b2 - 128)), r2) else (replChar, rest)
    | [] => (replChar, [])
  else if 224 ≤ b && b ≤ 239 then
    let lo2 := if b = 224 then 160 else 128
    let hi2 := if b = 237 then 159 else 191
    match rest with
    | b2 :: r2 =>
      if lo2 ≤ b2 && b2 ≤ hi2 then
        match r2 with
        | b3 :: r3 =>
          if isCont b3 then (Char.ofNat ((b - 224) * 4096 + (b2 - 128) * 64 + (b3 - 128)), r3)
          else (replChar, r2)
        | [] => (replChar, [])
      else (replChar, rest)
    | [] => (replChar, [])
  else if 240 ≤ b && b ≤ 244 then
    let lo2 := if b = 240 then 144 else 128
    let hi2 := if b = 244 then 143 else 191
    match rest with
    | b2 :: r2 =>
      if lo2 ≤ b2 && b2 ≤ hi2 then
        match r2 with
        | b3 :: r3 =>
          if isCont b3 then
            match r3 with
            | b4 :: r4 =>
              if isCont b4 then
                (Char.ofNat ((b - 240) * 262144 + (b2 - 128) * 4096 + (b3 - 128) * 64 + (b4 - 128)), r4)
              else (replChar, r3)
            | [] => (replChar, [])
          else (replChar, r2)
        | [] => (replChar, [])
      else (replChar, rest)
    | [] => (replChar, [])
  else (replChar, rest)

def utf8DecodeGo : Nat → List Nat → List Char
  | 0, _ => []
  | _, [] => []
  | fuel+1, b :: rest =>
    let (c, r2) := utf8Step b rest
    c :: utf8DecodeGo fuel r2

def utf8DecodeReplace (l : List Nat) : List Char := utf8DecodeGo l.length l

/-! ### Percent-decoding (model of `urllib.parse.unquote` with UTF-8/replace) -/

def isHexDigit (c : Char) : Bool :=
  isAsciiDigit c || (97 ≤ c.toNat && c.toNat ≤ 102) || (65 ≤ c.toNat && c.toNat ≤ 70)

def hexVal (c : Char) : Nat :=
  if isAsciiDigit c then c.toNat - 48
  else if 97 ≤ c.toNat then c.toNat - 87
  else c.toNat - 55

/-- Collects a maximal leading run of `%hh` escapes as bytes. -/
def pctRun : List Char → List Nat × List Char
  | '%' :: h1 :: h2 :: rest =>
    if isHexDigit h1 && isHexDigit h2 then
      let (bs, r) := pctRun rest
      ((hexVal h1 * 16 + hexVal h2) :: bs, r)
    else ([], '%' :: h1 :: h2 :: rest)
  | l => ([], l)

def unquoteGo : Nat → List Char → List Char
  | 0, _ => []
  | _, [] => []
  | fuel+1, c :: rest =>
    if c = '%' then
      let (bs, r) := pctRun (c :: rest)
      match bs with
      | [] => c :: unquoteGo fuel rest
      | _ => utf8DecodeReplace bs ++ unquoteGo fuel r
    else c :: unquoteGo fuel rest

def pyUnquote (cs : List Char) : String := String.mk (unquoteGo cs.length cs)

/-- Replaces `+` by a space, the step `parse_qsl` applies before `unquote`. -/
def plusToSpace (cs : List Char) : List Char :=
  cs.map (fun c => if c = '+' then ' ' else c)

/-! ### Query-string parsing (model of `urllib.parse.parse_qsl`) -/

/-- Processes one `&`-separated field of the query string exactly as the loop
body of `urllib.parse.parse_qsl` does; `keep_blank_values` selects the
non-default behaviour used only by the claim-side model. -/
def qslField (keep_blank_values : Bool) (field : List Char) : Option (String × String) :=
  if field.isEmpty then none
  else
    match splitFirst '=' field with
    | none =>
      if keep_blank_values then some (pyUnquote (plusToSpace field), "") else none
    | some (n, v) =>
      if v.isEmpty && !keep_blank_values then none
      else some (pyUnquote (plusToSpace n), pyUnquote (plusToSpace v))

/-- Model of `urllib.parse.parse_qsl(qs)` with default arguments. -/
def parse_qsl (qs : String) : List (String × String) :=
  (splitOnChar '&' qs.data).filterMap (qslField false)

/-- Model of `urllib.parse.parse_qsl(qs, keep_blank_values=True)`; used only to
formalise the claim text, which asserts blank values are kept. -/
def parse_qsl_keep_blanks (qs : String) : List (String × String) :=
  (splitOnChar '&' qs.data).filterMap (qslField true)

/-! ### Python `dict` as an insertion-ordered association list -/

/-- Inserting into a `dict`: an existing key keeps its position and gets the
new value; a new key is appended. -/
def updateAssoc : List (String × String) → String → String → List (String × String)
  | [], k, v => [(k, v)]
  | kv :: rest, k, v => if kv.1 = k then (k, v) :: rest else kv :: updateAssoc rest k v

/-- Model of `dict(pairs)` (last value wins, first-insertion order kept). -/
def pyDict (l : List (String × String)) : List (String × String) :=
  l.foldl (fun d kv => updateAssoc d kv.1 kv.2) []

/-- Model of `d.get(k)` / `d.get(k, default)` via `Option`. -/
def assocGet : List (String × String) → String → Option String
  | [], _ => none
  | kv :: rest, k => if kv.1 = k then some kv.2 else assocGet rest k

/-- Model of `d.pop(k, None)`: removes the (unique) entry with key `k`. -/
def popKey : List (String × String) → String → List (String × String)
  | [], _ => []
  | kv :: rest, k => if kv.1 = k then rest else kv :: popKey rest k

/-! ### Python `int(str)` (model; ASCII digits, sign, underscores) -/

def isPyStripSpace (c : Char) : Bool :=
  c = ' ' || c = '\t' || c = '\n' || c = '\x0d' || c.toNat = 11 || c.toNat = 12

/-- Digit groups with single underscores between digits, as `int()` accepts. -/
def intDigitsGo : List Char → Bool
  | [] => true
  | '_' :: c :: rest => isAsciiDigit c && intDigitsGo rest
  | c :: rest => isAsciiDigit c && intDigitsGo rest

def dropUnderscores (cs : List Char) : List Char := cs.filter (fun c => c ≠ '_')

/-- Model of Python `int(s)`: strips whitespace, allows one sign, requires a
nonempty digit string (underscore separators allowed); `none` models the
`ValueError` raise. -/
def pyInt (s : String) : Option Int :=
  let cs := (s.data.dropWhile isPyStripSpace).reverse.dropWhile isPyStripSpace |>.reverse
  let (neg, ds) :=
    match cs with
    | '-' :: rest => (true, rest)
    | '+' :: rest => (false, rest)
    | rest => (false, rest)
  match ds with
  | [] => none
  | '_' :: _ => none
  | c :: _ =>
    if isAsciiDigit c && intDigitsGo ds && (ds.getLast? ≠ some '_') then
      let n : Int := Int.ofNat (digitsToNat (dropUnderscores ds))
      some (if neg then -n else n)
    else none

/-! ### `hmac.compare_digest` on `str` arguments -/

def isAsciiStr (s : String) : Bool := s.data.all (fun c => c.toNat < 128)

/-- Model of `hmac.compare_digest(a, b)` for `str` arguments: raises
`TypeError` on non-ASCII input, otherwise compares for equality (the
constant-time aspect has no functional content). -/
def compareDigest (a b : String) : Except String Bool :=
  if isAsciiStr a && isAsciiStr b then Except.ok (a = b)
  else Except.error "TypeError: comparing strings with non-ASCII characters is not supported"

/-! ### Sorting of key/value pairs (model of Python `sorted` on 2-tuples) -/

/-- Python's `<` on strings: lexicographic comparison by Unicode code
point. -/
def charsLt : List Char → List Char → Bool
  | _, [] => false
  | [], _ :: _ => true
  | a :: as, b :: bs =>
    if a.toNat < b.toNat then true
    else if b.toNat < a.toNat then false
    else charsLt as bs

def strLt (a b : String) : Bool := charsLt a.data b.data

/-- Python's `<=` on strings (the negation of `>` for this total order). -/
def strLe (a b : String) : Bool := !strLt b a

/-- Python tuple comparison (non-strict) on `(key, value)` pairs:
lexicographic on the components. -/
def pairLE (a b : String × String) : Prop :=
  (strLt a.1 b.1 || (a.1 == b.1 && strLe a.2 b.2)) = true

instance : DecidableRel pairLE := fun a b =>
  inferInstanceAs (Decidable ((strLt a.1 b.1 || (a.1 == b.1 && strLe a.2 b.2)) = true))

/-- Key-only comparison, used to formalise the claim wording "sorted ascending
by key". -/
def keyLE (a b : String × String) : Prop := strLe a.1 b.1 = true

instance : DecidableRel keyLE := fun a b =>
  inferInstanceAs (Decidable (strLe a.1 b.1 = true))

/-- Model of `sorted(pairs)` (Python sorts tuples lexicographically). -/
def pySorted (l : List (String × String)) : List (String × String) :=
  List.insertionSort pairLE l

/-- Renders pairs as `key=value` lines joined by newlines. -/
def joinKV (l : List (String × String)) : String :=
  String.intercalate "\n" (l.map (fun kv => kv.1 ++ "=" ++ kv.2))

/-! ### `app.py`: `validate_max_init_data` -/

/-- Step 1 of the validator: `parsed_data = dict(parse_qsl(init_data))`. -/
def parsedData (init_data : String) : List (String × String) :=
  pyDict (parse_qsl init_data)

/-- Step 2: `received_hash = parsed_data.pop('hash', None)` (the value). -/
def receivedHash (init_data : String) : Option String :=
  assocGet (parsedData init_data) "hash"

/-- The dictionary after `pop('hash', None)`. -/
def restPairs (init_data : String) : List (String × String) :=
  popKey (parsedData init_data) "hash"

/-- Steps 3-4: the canonical check string
`"\n".join(f"{k}={v}" for k, v in sorted(parsed_data.items()))`. -/
def data_check_string (init_data : String) : String :=
  joinKV (pySorted (restPairs init_data))

/-- Step 5: `hmac.new(key=b"WebAppData", msg=bot_token.encode(), sha256).digest()`. -/
def secret_key (bot_token : String) : List Nat :=
  hmacSha256 (utf8Bytes "WebAppData") (utf8Bytes bot_token)

/-- Step 6: `hmac.new(key=secret_key, msg=data_check_string.encode(), sha256).hexdigest()`. -/
def calculated_hash (bot_token dcs : String) : String :=
  hexLower (hmacSha256 (secret_key bot_token) (utf8Bytes dcs))

/-- Step 8 input: `int(parsed_data.get('auth_date', 0))`; `none` models the
`ValueError` raise on a non-numeric value. -/
def authDateVal (init_data : String) : Option Int :=
  match assocGet (restPairs init_data) "auth_date" with
  | none => some 0
  | some s => pyInt s

/-- The body of the `try` block of `validate_max_init_data`; an
`Except.error` models an exception reaching the `except` handler. -/
def validateTry (init_data bot_token : String) (now : Int) : Except String Bool :=
  match receivedHash init_data with
  | none => Except.ok false
  | some received_hash =>
    if received_hash = "" then Except.ok false
    else
      match compareDigest (calculated_hash bot_token (data_check_string init_data)) received_hash with
      | Except.error e => Except.error e
      | Except.ok ok =>
        if ok = false then Except.ok false
        else
          match authDateVal init_data with
          | none => Except.error "ValueError: invalid literal for int() with base 10"
          | some auth_date =>
            if auth_date ≠ 0 ∧ 86400 < now - auth_date then Except.ok false
            else Except.ok true

/-- Model of `validate_max_init_data(init_data, bot_token)` from `app.py`,
with `time.time()` passed in as the integer `now`. -/
def validate_max_init_data (init_data bot_token : String) (now : Int) : Bool :=
  if init_data = "" ∨ bot_token = "" then false
  else
    match validateTry init_data bot_token now with
    | Except.ok b => b
    | Except.error _ => false

/-! ### Claim-side models for the check-string claims -/

/-- Keeps, for each key, the last value occurring in the list (one entry per
key); order of the output is irrelevant to its use, which always sorts. -/
def dedupSeen (seen : List String) : List (String × String) → List (String × String)
  | [] => []
  | kv :: rest => if kv.1 ∈ seen then dedupSeen seen rest else kv :: dedupSeen (kv.1 :: seen) rest

def lastWins (l : List (String × String)) : List (String × String) :=
  dedupSeen [] l.reverse

/-- Follows the words of claim C3: all URL-decoded pairs (blank values valid,
duplicates kept) except `hash`, sorted ascending by key, `key=value`, joined
with newlines. -/
def claimedCheckString (init_data : String) : String :=
  joinKV (List.insertionSort keyLE
    ((parse_qsl_keep_blanks init_data).filter (fun kv => kv.1 ≠ "hash")))

/-- Follows the amended wording of claim C3: pairs with blank values are
dropped and only the last value of each repeated key is kept; the remaining
pairs, minus `hash`, are sorted ascending by key and joined as
`key=value` lines. -/
def amendedCheckString (init_data : String) : String :=
  joinKV (List.insertionSort keyLE
    ((lastWins ((parse_qsl_keep_blanks init_data).filter (fun kv => kv.2 ≠ "")))
      |>.filter (fun kv => kv.1 ≠ "hash")))

/-! ### `utils.py`: `parse_flavor`

The regex `re.match(r"(\d+)/(\d+)\s*(\d+)%?", flavor)` is modelled by a
backtracking matcher specialised to this pattern.  `re.match` anchors at the
start only; the trailing `%?` always succeeds and input may continue after
the match.  Greedy `\d+`/`\s*` with backtracking is implemented by trying the
longer alternative first and falling back on failure. -/

/-- Matches the final `(\d+)%?` at the current position: needs a nonempty
digit run; everything after it is ignored. -/
def reG3 (l : List Char) : Option String :=
  let d := l.takeWhile isAsciiDigit
  if d.isEmpty then none else some (String.mk d)

/-- Matches `\s*(\d+)%?` with greedy, backtracking `\s*`: consuming more
whitespace is tried first, stopping here is the fallback. -/
def reSpacesG3 : List Char → Option String
  | [] => reG3 []
  | c :: rest =>
    if isPySpace c then
      match reSpacesG3 rest with
      | some r => some r
      | none => reG3 (c :: rest)
    else reG3 (c :: rest)

/-- Matches `(\d+)\s*(\d+)%?`: `acc` holds the digits of group 2 consumed so
far (reversed); consuming another digit is tried before stopping. -/
def reG2 (acc : List Char) : List Char → Option (String × String)
  | [] =>
    if acc.isEmpty then none
    else (reSpacesG3 []).map (fun g3 => (String.mk acc.reverse, g3))
  | c :: rest =>
    if isAsciiDigit c then
      match reG2 (c :: acc) rest with
      | some r => some r
      | none =>
        if acc.isEmpty then none
        else (reSpacesG3 (c :: rest)).map (fun g3 => (String.mk acc.reverse, g3))
    else
      if acc.isEmpty then none
      else (reSpacesG3 (c :: rest)).map (fun g3 => (String.mk acc.reverse, g3))

/-- Matches `(\d+)/` at the start: after the greedy digit run of group 1 the
single fallback position must hold `/` (shorter runs would put a digit
there, so no further backtracking can succeed). -/
def reG1 (acc : List Char) : List Char → Option (String × String × String)
  | [] => none
  | c :: rest =>
    if isAsciiDigit c then reG1 (c :: acc) rest
    else if acc.isEmpty then none
    else if c = '/' then
      (reG2 [] rest).map (fun g => (String.mk acc.reverse, g.1, g.2))
    else none

/-- Model of `re.match(r"(\d+)/(\d+)\s*(\d+)%?", s)`, returning the three
captured groups on success. -/
def reFlavorMatch (s : String) : Option (String × String × String) :=
  reG1 [] s.data

/-- Result record of `parse_flavor` (the Python dict with fixed keys). -/
structure FlavorResult where
  cpu : String
  ram : String
  overcommit : String
deriving DecidableEq

/-- Model of `utils.parse_flavor`. -/
def parse_flavor (flavor : String) : FlavorResult :=
  let result : FlavorResult := ⟨"", "", ""⟩
  if flavor = "" then result
  else
    match reFlavorMatch flavor with
    | none => result
    | some (g1, g2, g3) =>
      let r : FlavorResult := ⟨g1, g2, g3⟩
      if r.overcommit = "30" then (⟨r.cpu, r.ram, "1:3"⟩ : FlavorResult) else r

/-! ### `ipaddress.IPv4Network(subnet, strict=False)` (string form) -/

/-- Model of `_parse_octet`: 1-3 ASCII digits, no leading zero except `"0"`,
value at most 255. -/
def parseOctet (cs : List Char) : Option Nat :=
  if cs.isEmpty then none
  else if !cs.all isAsciiDigit then none
  else if 3 < cs.length then none
  else if 1 < cs.length && cs.headD '0' = '0' then none
  else
    let v := digitsToNat cs
    if v ≤ 255 then some v else none

/-- Model of `_ip_int_from_string`: exactly four dot-separated octets. -/
def parseIPv4 (cs : List Char) : Option Nat :=
  match splitOnChar '.' cs with
  | [a, b, c, d] =>
    match parseOctet a, parseOctet b, parseOctet c, parseOctet d with
    | some a, some b, some c, some d => some (a * 16777216 + b * 65536 + c * 256 + d)
    | _, _, _, _ => none
  | _ => none

/-- The netmask integer for a given prefix length. -/
def maskOfBits (p : Nat) : Nat := 4294967296 - 2 ^ (32 - p)

/-- Recovers a prefix length from a netmask-shaped integer (`1*0*` in binary),
as `_prefix_from_ip_int` does. -/
def maskBits (m : Nat) : Option Nat :=
  (List.range 33).find? (fun p => m = maskOfBits p)

/-- Model of `_prefix_from_prefix_string`: ASCII digits only (leading zeros
allowed, as `int()` accepts them), value at most 32. -/
def parseBitsStr (cs : List Char) : Option Nat :=
  if cs.isEmpty || !cs.all isAsciiDigit then none
  else
    let v := digitsToNat cs
    if v ≤ 32 then some v else none

/-- Model of `_make_netmask` on the string after `/`: try a plain prefix
length, then a dotted netmask, then a dotted hostmask. -/
def parseMask (cs : List Char) : Option Nat :=
  match parseBitsStr cs with
  | some p => some p
  | none =>
    match parseIPv4 cs with
    | none => none
    | some m =>
      match maskBits m with
      | some p => some p
      | none => maskBits (m ^^^ 4294967295)

/-- Model of `ipaddress.IPv4Network(s, strict=False)` for a string input:
returns the (masked) network address and the prefix length; `none` models an
`AddressValueError`/`NetmaskValueError` raise. -/
def parseCidr (s : String) : Option (Nat × Nat) :=
  match splitOnChar '/' s.data with
  | [a] => (parseIPv4 a).map (fun ip => (ip, 32))
  | [a, m] =>
    match parseIPv4 a, parseMask m with
    | some ip, some p => some (ip &&& maskOfBits p, p)
    | _, _ => none
  | _ => none

/-- Model of `list(network)`: every address of the network in ascending
order. -/
def listNetwork (net p : Nat) : List Nat :=
  (List.range (2 ^ (32 - p))).map (fun i => net + i)

/-- Model of `str(IPv4Address)`: dotted-quad rendering. -/
def ipv4ToString (n : Nat) : String :=
  natToStr (n / 16777216 % 256) ++ "." ++ natToStr (n / 65536 % 256) ++ "." ++
    natToStr (n / 256 % 256) ++ "." ++ natToStr (n % 256)

/-! ### `json.dumps` for the corax node list -/

/-- Escaping of one character under `json.dumps` defaults (`ensure_ascii`):
printable ASCII except quote and backslash is literal, the rest escaped. -/
def jsonEscapeChar (c : Char) : String :=
  if c = '"' then "\\\""
  else if c = '\\' then "\\\\"
  else if c = '\n' then "\\n"
  else if c = '\x0d' then "\\r"
  else if c = '\t' then "\\t"
  else if c.toNat = 8 then "\\b"
  else if c.toNat = 12 then "\\f"
  else if 32 ≤ c.toNat && c.toNat ≤ 126 then String.mk [c]
  else if c.toNat < 65536 then "\\u" ++ hex4 c.toNat
  else
    "\\u" ++ hex4 (55296 + (c.toNat - 65536) / 1024) ++ "\\u" ++ hex4 (56320 + (c.toNat - 65536) % 1024)

def jsonString (s : String) : String :=
  "\"" ++ String.join (s.data.map jsonEscapeChar) ++ "\""

def jsonStrList (l : List String) : String :=
  "[" ++ String.intercalate ", " (l.map jsonString) ++ "]"

/-- One node dict of `parse_subnet` (`name`/`host`/`user`/`roles`). -/
structure NodeInfo where
  name : String
  host : String
  user : String
  roles : List String
deriving DecidableEq

/-- Model of `json.dumps` (default separators) on one node dict. -/
def jsonNode (n : NodeInfo) : String :=
  "\x7b\"name\": " ++ jsonString n.name ++ ", \"host\": " ++ jsonString n.host ++
    ", \"user\": " ++ jsonString n.user ++ ", \"roles\": " ++ jsonStrList n.roles ++ "\x7d"

/-- Model of `json.dumps(corax_nodes)`. -/
def jsonDumpsNodes (ns : List NodeInfo) : String :=
  "[" ++ String.intercalate ", " (ns.map jsonNode) ++ "]"

/-! ### `utils.py`: `parse_subnet` -/

/-- The three hard-coded node names of `parse_subnet`. -/
def node_names : List String :=
  ["kafka-bpmx-01.testgis-platform.tech.pd33.testowner.gtn",
   "kafka-bpmx-02.testgis-platform.tech.pd33.testowner.gtn",
   "kafka-bpmx-03.testgis-platform.tech.pd33.testowner.gtn"]

/-- The fixed role list of `parse_subnet`. -/
def nodeRoles : List String := ["kafka", "zookeeper", "crxsr", "crxui"]

/-- Result record of `parse_subnet` (the Python dict with fixed keys). -/
structure SubnetResult where
  CLUSTER_GATEWAY : String
  DEPLOY_NODE_HOST : String
  CORAX_NODES : String
deriving DecidableEq

/-- The `ValueError` message raised when too few addresses remain. -/
def subnetSmallMsg (subnet : String) : String :=
  "Not enough IP addresses available in subnet " ++ subnet ++
    ". Need at least 3 addresses after skipping first 4."

/-- The body of `parse_subnet` after the empty-input guard and the network
parse, with the node list still structured (before `json.dumps`). -/
def parse_subnet_parts (subnet : String) (net p : Nat) :
    Except String (String × String × List NodeInfo) :=
  let all_addresses := (listNetwork net p).drop 4
  if all_addresses.length < 3 then Except.error (subnetSmallMsg subnet)
  else
    let cluster_gateway := ipv4ToString ((listNetwork net p).getD 1 0)
    let deploy_node_host := ipv4ToString ((listNetwork net p).getD 4 0)
    let corax_nodes := (List.range 3).map (fun i =>
      NodeInfo.mk (node_names.getD i "") (ipv4ToString (all_addresses.getD i 0)) "root" nodeRoles)
    Except.ok (cluster_gateway, deploy_node_host, corax_nodes)

/-- Model of `utils.parse_subnet`; `Except.error` models a raised exception
(`AddressValueError`/`NetmaskValueError` from the network parse, or the
explicit `ValueError`). -/
def parse_subnet (subnet : String) : Except String SubnetResult :=
  if subnet = "" then Except.ok ⟨"", "", ""⟩
  else
    match parseCidr subnet with
    | none => Except.error ("AddressValueError: " ++ subnet)
    | some (net, p) =>
      match parse_subnet_parts subnet net p with
      | Except.error e => Except.error e
      | Except.ok (g, d, ns) => Except.ok ⟨g, d, jsonDumpsNodes ns⟩

end Corax

/-! ### `bot.py`: the duplicated `parse_flavor` and `parse_subnet`
(`bot.py` lines 36-103 are byte-for-byte the same code as `utils.py`
lines 32-99; the embedding duplicates the function bodies over the shared
standard-library models). -/

namespace CoraxBot

open Corax

/-- Model of `bot.parse_flavor`. -/
def parse_flavor (flavor : String) : FlavorResult :=
  let result : FlavorResult := ⟨"", "", ""⟩
  if flavor = "" then result
  else
    match reFlavorMatch flavor with
    | none => result
    | some (g1, g2, g3) =>
      let r : FlavorResult := ⟨g1, g2, g3⟩
      if r.overcommit = "30" then (⟨r.cpu, r.ram, "1:3"⟩ : FlavorResult) else r

/-- The body of `bot.parse_subnet` after the empty-input guard and the
network parse. -/
def parse_subnet_parts (subnet : String) (net p : Nat) :
    Except String (String × String × List NodeInfo) :=
  let all_addresses := (listNetwork net p).drop 4
  if all_addresses.length < 3 then Except.error (subnetSmallMsg subnet)
  else
    let cluster_gateway := ipv4ToString ((listNetwork net p).getD 1 0)
    let deploy_node_host := ipv4ToString ((listNetwork net p).getD 4 0)
    let corax_nodes := (List.range 3).map (fun i =>
      NodeInfo.mk (node_names.getD i "") (ipv4ToString (all_addresses.getD i 0)) "root" nodeRoles)
    Except.ok (cluster_gateway, deploy_node_host, corax_nodes)

/-- Model of `bot.parse_subnet`. -/
def parse_subnet (subnet : String) : Except String SubnetResult :=
  if subnet = "" then Except.ok ⟨"", "", ""⟩
  else
    match parseCidr subnet with
    | none => Except.error ("AddressValueError: " ++ subnet)
    | some (net, p) =>
      match parse_subnet_parts subnet net p with
      | Except.error e => Except.error e
      | Except.ok (g, d, ns) => Except.ok ⟨g, d, jsonDumpsNodes ns⟩

end CoraxBot

namespace Corax

/-- First-biased choice on optional values (used to state lookup lemmas). -/
def optOr : Option String → Option String → Option String
  | some v, _ => some v
  | none, o => o

/-- Removes the first occurrence of a pair from a list (used only in
proofs). -/
def removeFirst : List (String × String) → (String × String) → List (String × String)
  | [], _ => []
  | b :: t, a => if b = a then t else b :: removeFirst t a

/-! ### Instances used by the proofs -/

instance {ε α : Type} [DecidableEq ε] [DecidableEq α] : DecidableEq (Except ε α) := fun x y =>
  match x, y with
  | Except.ok a, Except.ok b =>
    if h : a = b then isTrue (by rw [h]) else isFalse (fun he => h (Except.ok.injEq a b ▸ he))
  | Except.ok _, Except.error _ => isFalse (fun he => Except.noConfusion he)
  | Except.error _, Except.ok _ => isFalse (fun he => Except.noConfusion he)
  | Except.error e, Except.error f =>
    if h : e = f then isTrue (by rw [h]) else isFalse (fun he => h (Except.error.injEq e f ▸ he))

end Corax

namespace Corax

/-! ### Claim theorems -/

/-- Claim C2 (counterexample): `parse_subnet "10.10.10.0/24"` does not produce
the claimed output whose node hosts are `10.10.10.5`, `10.10.10.6`,
`10.10.10.7` (gateway, deploy host, names, user, roles and JSON shape as the
claim states them). -/
theorem C2_subnet_example_counterexample :
    parse_subnet "10.10.10.0/24" ≠
      Except.ok ⟨"10.10.10.1", "10.10.10.4",
        "[\x7b\"name\": \"kafka-bpmx-01.testgis-platform.tech.pd33.testowner.gtn\", \"host\": \"10.10.10.5\", \"user\": \"root\", \"roles\": [\"kafka\", \"zookeeper\", \"crxsr\", \"crxui\"]\x7d, \x7b\"name\": \"kafka-bpmx-02.testgis-platform.tech.pd33.testowner.gtn\", \"host\": \"10.10.10.6\", \"user\": \"root\", \"roles\": [\"kafka\", \"zookeeper\", \"crxsr\", \"crxui\"]\x7d, \x7b\"name\": \"kafka-bpmx-03.testgis-platform.tech.pd33.testowner.gtn\", \"host\": \"10.10.10.7\", \"user\": \"root\", \"roles\": [\"kafka\", \"zookeeper\", \"crxsr\", \"crxui\"]\x7d]"⟩ := by
  decide

/-- Claim C2 (amended): `parse_subnet "10.10.10.0/24"` returns gateway
`10.10.10.1`, deploy host `10.10.10.4`, and exactly 3 node descriptors whose
host addresses are `10.10.10.4`, `10.10.10.5` and `10.10.10.6` (the fifth,
sixth and seventh addresses of the network), each carrying one of the three
hard-coded node names, user `root` and the role list
`kafka, zookeeper, crxsr, crxui`, serialized as a JSON array of four-field
objects. -/
theorem C2_subnet_example :
    parse_subnet "10.10.10.0/24" =
      Except.ok ⟨"10.10.10.1", "10.10.10.4",
        "[\x7b\"name\": \"kafka-bpmx-01.testgis-platform.tech.pd33.testowner.gtn\", \"host\": \"10.10.10.4\", \"user\": \"root\", \"roles\": [\"kafka\", \"zookeeper\", \"crxsr\", \"crxui\"]\x7d, \x7b\"name\": \"kafka-bpmx-02.testgis-platform.tech.pd33.testowner.gtn\", \"host\": \"10.10.10.5\", \"user\": \"root\", \"roles\": [\"kafka\", \"zookeeper\", \"crxsr\", \"crxui\"]\x7d, \x7b\"name\": \"kafka-bpmx-03.testgis-platform.tech.pd33.testowner.gtn\", \"host\": \"10.10.10.6\", \"user\": \"root\", \"roles\": [\"kafka\", \"zookeeper\", \"crxsr\", \"crxui\"]\x7d]"⟩ := by
  decide

/-- Claim C7: `parse_flavor` maps the first two captured digit groups of a
matching input verbatim to `cpu` and `ram`, maps the third group to
`overcommit` normalizing exactly the value `"30"` to `"1:3"` and leaving
every other value unchanged; in particular
`parse_flavor "2/4 30%" = (2, 4, 1:3)` and
`parse_flavor "8/16 45%" = (8, 16, 45)`. -/
theorem C7_flavor_groups :
    (∀ s g1 g2 g3, reFlavorMatch s = some (g1, g2, g3) →
        parse_flavor s = ⟨g1, g2, if g3 = "30" then "1:3" else g3⟩) ∧
      parse_flavor "2/4 30%" = ⟨"2", "4", "1:3"⟩ ∧
      parse_flavor "8/16 45%" = ⟨"8", "16", "45"⟩ := by
  refine ⟨?_, by decide, by decide⟩
  intro s g1 g2 g3 hm
  unfold parse_flavor
  by_cases hs : s = ""
  · rw [hs] at hm
    rw [show reFlavorMatch "" = none from rfl] at hm
    exact Option.noConfusion hm
  · rw [if_neg hs, hm]
    by_cases h30 : g3 = "30"
    · rw [h30]
      simp
    · simp [h30]

/-- Claim C7 (witness): the universal part of C7 applied to the concrete
matching input `"2/4 30%"`. -/
theorem C7_flavor_groups_witness :
    parse_flavor "2/4 30%" = ⟨"2", "4", "1:3"⟩ :=
  C7_flavor_groups.1 "2/4 30%" "2" "4" "30" (by decide)

/-- Claim C8: for every input string the flavor regex does not match
(including the empty string), `parse_flavor` returns all three fields as
empty strings (and, being a total function, raises nothing). -/
theorem C8_flavor_no_match :
    ∀ s, reFlavorMatch s = none → parse_flavor s = ⟨"", "", ""⟩ := by
  intro s hm
  unfold parse_flavor
  by_cases hs : s = ""
  · rw [if_pos hs]
  · rw [if_neg hs, hm]

/-- Claim C8 (witness): C8 applied to the concrete non-matching input
`"garbage"`. -/
theorem C8_flavor_no_match_witness :
    parse_flavor "garbage" = ⟨"", "", ""⟩ :=
  C8_flavor_no_match "garbage" (by decide)

/-- Claim C10: the `parse_flavor` and `parse_subnet` functions defined in
`bot.py` agree extensionally with the identically named functions in
`utils.py`, returning equal results and raising under the same conditions
(the `Except` values coincide). -/
theorem C10_bot_utils_equal :
    (∀ s, CoraxBot.parse_flavor s = Corax.parse_flavor s) ∧
      ∀ s, CoraxBot.parse_subnet s = Corax.parse_subnet s :=
  ⟨fun _ => rfl, fun _ => rfl⟩

end Corax

namespace Corax

/-- Claim C6: for every non-empty input that parses as an IPv4 network,
`parse_subnet` raises the descriptive `ValueError` exactly when fewer than 3
addresses remain after skipping the first 4 addresses of the network (and
that is the only error it can raise then, so it never returns a half-built
result); the empty input short-circuits to the all-empty result without
error. -/
theorem C6_subnet_error_iff :
    (∀ s net p, s ≠ "" → parseCidr s = some (net, p) →
        ((parse_subnet s = Except.error (subnetSmallMsg s)) ↔
            ((listNetwork net p).drop 4).length < 3) ∧
          ∀ e, parse_subnet s = Except.error e → e = subnetSmallMsg s) ∧
      parse_subnet "" = Except.ok ⟨"", "", ""⟩ := by
  refine ⟨?_, rfl⟩
  intro s net p hs hparse
  unfold parse_subnet
  rw [if_neg hs, hparse]
  by_cases hlen : ((listNetwork net p).drop 4).length < 3
  · simp only [parse_subnet_parts, if_pos hlen]
    refine ⟨by simpa using hlen, ?_⟩
    intro e he
    exact ((Except.error.injEq _ _).mp he).symm
  · simp only [parse_subnet_parts, if_neg hlen]
    refine ⟨⟨fun h => absurd h (by simp), fun h => absurd h hlen⟩, ?_⟩
    intro e he
    exact absurd he (by simp)

/-- Claim C6 (witness): the too-small network `10.10.10.0/30` raises the
descriptive error, via C6 applied at that concrete input. -/
theorem C6_subnet_error_iff_witness :
    parse_subnet "10.10.10.0/30" = Except.error (subnetSmallMsg "10.10.10.0/30") :=
  ((C6_subnet_error_iff.1 "10.10.10.0/30" 168430080 30 (by decide) (by decide)).1).mpr (by decide)

/-- Claim C9: whenever the network of a non-empty CIDR string has at least 8
addresses, the host of the first node descriptor produced by `parse_subnet`
equals the `DEPLOY_NODE_HOST` field of the same result, both being the fifth
address of the network. -/
theorem C9_deploy_is_first_node :
    ∀ s net p, s ≠ "" → parseCidr s = some (net, p) → 8 ≤ 2 ^ (32 - p) →
      ∃ g d ns, parse_subnet_parts s net p = Except.ok (g, d, ns) ∧
        parse_subnet s = Except.ok ⟨g, d, jsonDumpsNodes ns⟩ ∧
        (ns.map NodeInfo.host).headD "" = d ∧
        d = ipv4ToString (net + 4) := by
  intro s net p hs hparse hsize
  have hlen : ¬ ((listNetwork net p).drop 4).length < 3 := by
    rw [List.length_drop]
    unfold listNetwork
    rw [List.length_map, List.length_range]
    omega
  have hget4 : ((listNetwork net p).drop 4).getD 0 0 = (listNetwork net p).getD 4 0 := by
    rw [List.getD_eq_getElem?_getD, List.getD_eq_getElem?_getD, List.getElem?_drop]
  have hnet4 : (listNetwork net p).getD 4 0 = net + 4 := by
    unfold listNetwork
    rw [List.getD_eq_getElem?_getD, List.getElem?_map,
        List.getElem?_range (by omega : 4 < 2 ^ (32 - p))]
    rfl
  refine ⟨ipv4ToString ((listNetwork net p).getD 1 0),
    ipv4ToString ((listNetwork net p).getD 4 0),
    (List.range 3).map (fun i =>
      NodeInfo.mk (node_names.getD i "")
        (ipv4ToString (((listNetwork net p).drop 4).getD i 0)) "root" nodeRoles),
    ?_, ?_, ?_, ?_⟩
  · simp only [parse_subnet_parts, if_neg hlen]
  · unfold parse_subnet
    rw [if_neg hs, hparse]
    simp only [parse_subnet_parts, if_neg hlen]
  · rw [show List.range 3 = [0, 1, 2] from rfl]
    simp only [List.map_cons, List.headD_cons, hget4]
  · rw [hnet4]

/-- Claim C9 (witness): C9 applied at the concrete input `10.10.10.0/24`. -/
theorem C9_deploy_is_first_node_witness :
    ∃ g d ns, parse_subnet_parts "10.10.10.0/24" 168430080 24 = Except.ok (g, d, ns) ∧
      parse_subnet "10.10.10.0/24" = Except.ok ⟨g, d, jsonDumpsNodes ns⟩ ∧
      (ns.map NodeInfo.host).headD "" = d ∧
      d = ipv4ToString (168430080 + 4) :=
  C9_deploy_is_first_node "10.10.10.0/24" 168430080 24 (by decide) (by decide) (by decide)

end Corax

namespace Corax

/-! ### Helper lemmas about the hash pipeline -/

theorem shaRound_length (w st : List Nat) (t : Nat) (h : st.length = 8) :
    (shaRound w st t).length = 8 := by
  rcases st with _ | ⟨a, _ | ⟨b, _ | ⟨c, _ | ⟨d, _ | ⟨e, _ | ⟨f, _ | ⟨g, _ | ⟨h8, _ | ⟨i, rest⟩⟩⟩⟩⟩⟩⟩⟩⟩ <;>
    simp_all [shaRound]

theorem foldl_shaRound_length (w : List Nat) :
    ∀ (ts : List Nat) (st : List Nat), st.length = 8 → ((ts.foldl (shaRound w) st).length = 8) := by
  intro ts
  induction ts with
  | nil => intro st h; simpa using h
  | cons t ts ih => intro st h; simpa using ih _ (shaRound_length w st t h)

theorem shaCompress_length (H c : List Nat) (h : H.length = 8) :
    (shaCompress H c).length = 8 := by
  unfold shaCompress
  rw [List.length_zipWith, foldl_shaRound_length _ _ _ h, h]
  omega

theorem foldl_shaCompress_length :
    ∀ (cs : List (List Nat)) (H : List Nat), H.length = 8 → ((cs.foldl shaCompress H).length = 8) := by
  intro cs
  induction cs with
  | nil => intro H h; simpa using h
  | cons c cs ih => intro H h; simpa using ih _ (shaCompress_length H c h)

theorem sha256_ne_nil (msg : List Nat) : sha256 msg ≠ [] := by
  unfold sha256
  rcases hH : (toChunks (shaPad msg)).foldl shaCompress shaH0 with _ | ⟨a, t⟩
  · have h8 := foldl_shaCompress_length (toChunks (shaPad msg)) shaH0 rfl
    rw [hH] at h8
    simp at h8
  · simp [toBytesBE]

theorem hexLower_ne_empty (bs : List Nat) (h : bs ≠ []) : hexLower bs ≠ "" := by
  rcases bs with _ | ⟨b, t⟩
  · exact absurd rfl h
  · unfold hexLower
    intro he
    have hdata := congrArg String.data he
    simp at hdata

theorem calculated_hash_ne_empty (bt dcs : String) : calculated_hash bt dcs ≠ "" := by
  unfold calculated_hash
  apply hexLower_ne_empty
  unfold hmacSha256
  exact sha256_ne_nil _

theorem compareDigest_ok_true (a b : String) (h : compareDigest a b = Except.ok true) : a = b := by
  unfold compareDigest at h
  by_cases hc : (isAsciiStr a && isAsciiStr b) = true
  · rw [if_pos hc] at h
    exact of_decide_eq_true ((Except.ok.injEq _ _).mp h)
  · rw [if_neg hc] at h
    exact absurd h (by simp)

end Corax

namespace Corax

/-- Claim C1 (counterexample): the signing key the validator derives is not
"HMAC-SHA256 of the constant `WebAppData` using the secret as the HMAC key":
at the concrete secret `test_token` that formula disagrees with the key the
code computes (the code uses `WebAppData` as the HMAC key and the secret as
the message). -/
theorem C1_signing_key_counterexample :
    secret_key "test_token" ≠ hmacSha256 (utf8Bytes "test_token") (utf8Bytes "WebAppData") := by
  decide

/-- Claim C1 (amended): for every payload accepted by the validator, the
payload's `hash` field equals HMAC-SHA256 of the canonical check-string
rendered as lowercase hex, keyed by the signing key obtained as HMAC-SHA256
with the literal constant `WebAppData` as the HMAC key and the secret as the
message. -/
theorem C1_signing_key :
    ∀ init_data bot_token n, validate_max_init_data init_data bot_token n = true →
      receivedHash init_data =
        some (hexLower (hmacSha256 (hmacSha256 (utf8Bytes "WebAppData") (utf8Bytes bot_token))
          (utf8Bytes (data_check_string init_data)))) := by
  intro p s n hv
  unfold validate_max_init_data at hv
  by_cases hps : p = "" ∨ s = ""
  · rw [if_pos hps] at hv
    exact absurd hv (by simp)
  · rw [if_neg hps] at hv
    unfold validateTry at hv
    rcases hrh : receivedHash p with _ | h
    · rw [hrh] at hv
      simp at hv
    · rw [hrh] at hv
      dsimp only at hv
      by_cases hne : h = ""
      · rw [if_pos hne] at hv
        simp at hv
      · rw [if_neg hne] at hv
        rcases hcd : compareDigest (calculated_hash s (data_check_string p)) h with e | b
        · rw [hcd] at hv
          simp at hv
        · rw [hcd] at hv
          cases b
          · simp at hv
          · have hcalc := compareDigest_ok_true _ _ hcd
            rw [← hcalc]
            rfl

/-- Claim C1 (witness): C1 applied to a concrete accepted payload signed with
the secret `test_token`. -/
theorem C1_signing_key_witness :
    receivedHash "auth_date=1700000000&user=alice&hash=b1afd89f62313eeaf644a282d3d083bcc9b53923d1f1e74718c1db0f0715bd86" =
      some (hexLower (hmacSha256 (hmacSha256 (utf8Bytes "WebAppData") (utf8Bytes "test_token"))
        (utf8Bytes (data_check_string "auth_date=1700000000&user=alice&hash=b1afd89f62313eeaf644a282d3d083bcc9b53923d1f1e74718c1db0f0715bd86")))) :=
  C1_signing_key
    "auth_date=1700000000&user=alice&hash=b1afd89f62313eeaf644a282d3d083bcc9b53923d1f1e74718c1db0f0715bd86"
    "test_token" 1700000000 (by rfl)

/-- Claim C4: for every payload whose signature matches (and with a parsable
`auth_date`, defaulting to 0 when the field is missing), the validator
returns `false` exactly when `auth_date` is nonzero and `now - auth_date`
exceeds 86400 seconds, and `true` otherwise — in particular a zero or
missing `auth_date` skips the expiry check. -/
theorem C4_auth_date_expiry :
    ∀ p s n h a, p ≠ "" → s ≠ "" →
      receivedHash p = some h →
      compareDigest (calculated_hash s (data_check_string p)) h = Except.ok true →
      authDateVal p = some a →
      validate_max_init_data p s n = decide (a = 0 ∨ n - a ≤ 86400) := by
  intro p s n h a hp hs hrh hcd had
  have hcalc := compareDigest_ok_true _ _ hcd
  have hne : h ≠ "" := hcalc ▸ calculated_hash_ne_empty s (data_check_string p)
  unfold validate_max_init_data
  rw [if_neg (show ¬(p = "" ∨ s = "") by push_neg; exact ⟨hp, hs⟩)]
  unfold validateTry
  rw [hrh]
  dsimp only
  rw [if_neg hne, hcd]
  dsimp only
  rw [if_neg (show ¬(true = false) by simp)]
  rw [had]
  dsimp only
  by_cases hx : a ≠ 0 ∧ 86400 < n - a
  · rw [if_pos hx]
    dsimp only
    symm
    rw [decide_eq_false_iff_not]
    push_neg
    exact ⟨hx.1, by omega⟩
  · rw [if_neg hx]
    dsimp only
    symm
    rw [decide_eq_true_eq]
    by_cases ha0 : a = 0
    · exact Or.inl ha0
    · push_neg at hx
      exact Or.inr (hx ha0)

/-- Claim C4 (witness): a concrete signed payload with `auth_date` equal to
the current time is accepted (difference 0, inside the 86400-second
window). -/
theorem C4_auth_date_expiry_witness :
    validate_max_init_data
        "auth_date=1700000000&user=alice&hash=b1afd89f62313eeaf644a282d3d083bcc9b53923d1f1e74718c1db0f0715bd86"
        "test_token" 1700000000 = true :=
  (C4_auth_date_expiry
      "auth_date=1700000000&user=alice&hash=b1afd89f62313eeaf644a282d3d083bcc9b53923d1f1e74718c1db0f0715bd86"
      "test_token" 1700000000
      "b1afd89f62313eeaf644a282d3d083bcc9b53923d1f1e74718c1db0f0715bd86" 1700000000
      (by decide) (by decide) (by rfl) (by rfl) (by rfl)).trans (by rfl)

/-- Claim C5: the validator is a total boolean function — for every payload,
secret and time it returns `true` or `false` — and whenever the body of the
`try` block raises (modelled by `validateTry` returning an error, e.g. for
a non-numeric `auth_date`), the result collapses to `false`. -/
theorem C5_total_boolean :
    ∀ p s n, (validate_max_init_data p s n = true ∨ validate_max_init_data p s n = false) ∧
      ∀ e, validateTry p s n = Except.error e → validate_max_init_data p s n = false := by
  intro p s n
  constructor
  · cases hb : validate_max_init_data p s n
    · exact Or.inr rfl
    · exact Or.inl rfl
  · intro e he
    unfold validate_max_init_data
    by_cases hps : p = "" ∨ s = ""
    · rw [if_pos hps]
    · rw [if_neg hps, he]

/-- Claim C5 (witness): a payload with a correct signature but non-numeric
`auth_date` makes the try-body raise, and the validator returns `false`. -/
theorem C5_total_boolean_witness :
    validateTry "auth_date=x&hash=f5088efe02840e76a55d2fb88f244acd4c2556874bc4f5e7ed5a51a839d4812c"
        "test_token" 0 = Except.error "ValueError: invalid literal for int() with base 10" ∧
      validate_max_init_data
        "auth_date=x&hash=f5088efe02840e76a55d2fb88f244acd4c2556874bc4f5e7ed5a51a839d4812c"
        "test_token" 0 = false :=
  ⟨by rfl,
    (C5_total_boolean "auth_date=x&hash=f5088efe02840e76a55d2fb88f244acd4c2556874bc4f5e7ed5a51a839d4812c"
        "test_token" 0).2
      "ValueError: invalid literal for int() with base 10" (by rfl)⟩

end Corax

namespace Corax

/-! ### Order theory for the pair comparators -/

theorem char_eq_of_toNat {a b : Char} (h : a.toNat = b.toNat) : a = b := by
  apply Char.ext
  apply UInt32.ext
  exact h

theorem str_eq_of_data {a b : String} (h : a.data = b.data) : a = b := by
  cases a
  cases b
  exact congrArg String.mk h

theorem charsLt_self : ∀ l, charsLt l l = false := by
  intro l
  induction l with
  | nil => rfl
  | cons c t ih => simp [charsLt, ih]

theorem charsLt_asymm : ∀ x y, charsLt x y = true → charsLt y x = false := by
  intro x
  induction x with
  | nil =>
    intro y h
    cases y with
    | nil => simp [charsLt] at h
    | cons b bs => rfl
  | cons a as ih =>
    intro y h
    cases y with
    | nil => simp [charsLt] at h
    | cons b bs =>
      simp only [charsLt] at h ⊢
      by_cases h1 : a.toNat < b.toNat
      · rw [if_neg (by omega), if_pos h1]
      · by_cases h2 : b.toNat < a.toNat
        · rw [if_neg h1, if_pos h2] at h
          exact absurd h (by simp)
        · rw [if_neg h1, if_neg h2] at h
          rw [if_neg h2, if_neg h1]
          exact ih bs h

theorem charsLt_conn : ∀ x y, charsLt x y = false → charsLt y x = false → x = y := by
  intro x
  induction x with
  | nil =>
    intro y h1 _
    cases y with
    | nil => rfl
    | cons b bs => simp [charsLt] at h1
  | cons a as ih =>
    intro y h1 h2
    cases y with
    | nil => simp [charsLt] at h2
    | cons b bs =>
      simp only [charsLt] at h1 h2
      by_cases hab : a.toNat < b.toNat
      · rw [if_pos hab] at h1
        exact absurd h1 (by simp)
      · by_cases hba : b.toNat < a.toNat
        · rw [if_pos hba] at h2
          exact absurd h2 (by simp)
        · rw [if_neg hab, if_neg hba] at h1
          rw [if_neg hba, if_neg hab] at h2
          rw [char_eq_of_toNat (by omega : a.toNat = b.toNat), ih bs h1 h2]

theorem charsLt_trans : ∀ x y z, charsLt x y = true → charsLt y z = true → charsLt x z = true := by
  intro x
  induction x with
  | nil =>
    intro y z h1 h2
    cases y with
    | nil => simp [charsLt] at h1
    | cons b bs =>
      cases z with
      | nil => simp [charsLt] at h2
      | cons c cs => rfl
  | cons a as ih =>
    intro y z h1 h2
    cases y with
    | nil => simp [charsLt] at h1
    | cons b bs =>
      cases z with
      | nil => simp [charsLt] at h2
      | cons c cs =>
        simp only [charsLt] at h1 h2 ⊢
        by_cases hab : a.toNat < b.toNat
        · by_cases hbc : b.toNat < c.toNat
          · rw [if_pos (by omega : a.toNat < c.toNat)]
          · by_cases hcb : c.toNat < b.toNat
            · rw [if_neg hbc, if_pos hcb] at h2
              exact absurd h2 (by simp)
            · rw [if_pos (by omega : a.toNat < c.toNat)]
        · by_cases hba : b.toNat < a.toNat
          · rw [if_neg hab, if_pos hba] at h1
            exact absurd h1 (by simp)
          · rw [if_neg hab, if_neg hba] at h1
            by_cases hbc : b.toNat < c.toNat
            · rw [if_pos (by omega : a.toNat < c.toNat)]
            · by_cases hcb : c.toNat < b.toNat
              · rw [if_neg hbc, if_pos hcb] at h2
                exact absurd h2 (by simp)
              · rw [if_neg hbc, if_neg hcb] at h2
                rw [if_neg (by omega : ¬a.toNat < c.toNat), if_neg (by omega : ¬c.toNat < a.toNat)]
                exact ih bs cs h1 h2

theorem strLt_false_iff (a b : String) : ¬ strLt a b = true ↔ strLt a b = false := by
  simp

theorem strLe_trans {x y z : String} (h1 : strLe x y = true) (h2 : strLe y z = true) :
    strLe x z = true := by
  unfold strLe at h1 h2 ⊢
  simp only [Bool.not_eq_true'] at h1 h2 ⊢
  by_cases hzx : strLt z x = true
  · by_cases hxy : strLt x y = true
    · exact absurd (charsLt_trans _ _ _ hzx hxy) (by simp [strLt] at h2 ⊢; exact h2)
    · have hx : x = y := str_eq_of_data (charsLt_conn _ _ (by simpa [strLt] using hxy) (by simpa [strLt] using h1))
      rw [hx] at hzx
      simp [strLt] at hzx h2
      rw [hzx] at h2
      exact absurd h2 (by simp)
  · simpa using hzx

theorem strLe_conn {x y : String} (h1 : strLe x y = true) (h2 : strLe y x = true) : x = y := by
  unfold strLe at h1 h2
  simp only [Bool.not_eq_true'] at h1 h2
  exact str_eq_of_data (charsLt_conn _ _ h2 h1)

theorem strLe_total (x y : String) : strLe x y = true ∨ strLe y x = true := by
  unfold strLe
  by_cases h : strLt y x = true
  · right
    simp only [Bool.not_eq_true']
    exact charsLt_asymm _ _ h
  · left
    simpa using h

theorem pairLE_total : ∀ a b : String × String, pairLE a b ∨ pairLE b a := by
  intro a b
  unfold pairLE
  by_cases h1 : strLt a.1 b.1 = true
  · left
    simp [h1]
  · by_cases h2 : strLt b.1 a.1 = true
    · right
      simp [h2]
    · have hk : a.1 = b.1 :=
        str_eq_of_data (charsLt_conn _ _ (by simpa [strLt] using h1) (by simpa [strLt] using h2))
      rcases strLe_total a.2 b.2 with hv | hv
      · left
        simp [hk, hv]
      · right
        simp [hk, hv]

theorem pairLE_trans : ∀ a b c : String × String, pairLE a b → pairLE b c → pairLE a c := by
  intro a b c hab hbc
  unfold pairLE at hab hbc ⊢
  simp only [Bool.or_eq_true, Bool.and_eq_true, beq_iff_eq] at hab hbc ⊢
  rcases hab with h1 | ⟨h1, h1v⟩
  · rcases hbc with h2 | ⟨h2, _⟩
    · exact Or.inl (charsLt_trans _ _ _ h1 h2)
    · exact Or.inl (h2 ▸ h1)
  · rcases hbc with h2 | ⟨h2, h2v⟩
    · exact Or.inl (h1 ▸ h2)
    · exact Or.inr ⟨h1.trans h2, strLe_trans h1v h2v⟩

theorem pairLE_antisymm : ∀ a b : String × String, pairLE a b → pairLE b a → a = b := by
  intro a b hab hba
  unfold pairLE at hab hba
  simp only [Bool.or_eq_true, Bool.and_eq_true, beq_iff_eq] at hab hba
  rcases hab with h1 | ⟨h1, h1v⟩
  · rcases hba with h2 | ⟨h2, _⟩
    · have := charsLt_asymm _ _ h1
      rw [show strLt b.1 a.1 = charsLt b.1.data a.1.data from rfl, this] at h2
      exact absurd h2 (by simp)
    · rw [h2] at h1
      rw [show strLt a.1 a.1 = charsLt a.1.data a.1.data from rfl, charsLt_self] at h1
      exact absurd h1 (by simp)
  · rcases hba with h2 | ⟨h2, h2v⟩
    · rw [h1] at h2
      rw [show strLt b.1 b.1 = charsLt b.1.data b.1.data from rfl, charsLt_self] at h2
      exact absurd h2 (by simp)
    · exact Prod.ext h1 (strLe_conn h1v h2v)

theorem keyLE_total : ∀ a b : String × String, keyLE a b ∨ keyLE b a := by
  intro a b
  exact strLe_total a.1 b.1

theorem keyLE_trans : ∀ a b c : String × String, keyLE a b → keyLE b c → keyLE a c := by
  intro a b c h1 h2
  exact strLe_trans h1 h2

theorem keyLE_ne_pairLE {a b : String × String} (h : keyLE a b) (hne : a.1 ≠ b.1) : pairLE a b := by
  unfold keyLE strLe at h
  simp only [Bool.not_eq_true'] at h
  unfold pairLE
  simp only [Bool.or_eq_true, Bool.and_eq_true, beq_iff_eq]
  by_cases h1 : strLt a.1 b.1 = true
  · exact Or.inl h1
  · exact absurd (str_eq_of_data (charsLt_conn _ _ (by simpa [strLt] using h1) h)) hne

/-- Claim C3 (counterexample): on the payload `a=&b=1&b=2&hash=x` the check
string the code builds (`b=2`) differs from the claimed one (`a=\nb=1\nb=2`):
the code drops the blank-valued pair and keeps only the last value of the
duplicated key. -/
theorem C3_check_string_counterexample :
    data_check_string "a=&b=1&b=2&hash=x" ≠ claimedCheckString "a=&b=1&b=2&hash=x" := by
  decide

end Corax

namespace Corax

/-! ### Association list lemmas for the check-string claim -/

theorem optOr_none (o : Option String) : optOr none o = o := rfl

theorem optOr_some (v : String) (o : Option String) : optOr (some v) o = some v := rfl

theorem optOr_none_right (o : Option String) : optOr o none = o := by
  cases o <;> rfl

theorem optOr_assoc (a b c : Option String) : optOr (optOr a b) c = optOr a (optOr b c) := by
  cases a <;> cases b <;> rfl

theorem assocGet_cons (kv : String × String) (t : List (String × String)) (k : String) :
    assocGet (kv :: t) k = if kv.1 = k then some kv.2 else assocGet t k := rfl

theorem assocGet_not_mem {d : List (String × String)} {k : String}
    (h : k ∉ d.map Prod.fst) : assocGet d k = none := by
  induction d with
  | nil => rfl
  | cons kv t ih =>
    simp only [List.map_cons, List.mem_cons] at h
    push_neg at h
    rw [assocGet_cons, if_neg (fun he => h.1 he.symm), ih h.2]

theorem mem_of_assocGet {d : List (String × String)} {k v : String}
    (h : assocGet d k = some v) : (k, v) ∈ d := by
  induction d with
  | nil => exact absurd h (by simp [assocGet])
  | cons kv t ih =>
    rw [assocGet_cons] at h
    by_cases hk : kv.1 = k
    · rw [if_pos hk] at h
      have hv : kv.2 = v := by
        injection h
      rw [← hk, ← hv, Prod.mk.eta]
      exact List.mem_cons_self _ _
    · rw [if_neg hk] at h
      exact List.mem_cons_of_mem _ (ih h)

theorem assocGet_append (l1 l2 : List (String × String)) (k : String) :
    assocGet (l1 ++ l2) k = optOr (assocGet l1 k) (assocGet l2 k) := by
  induction l1 with
  | nil => rfl
  | cons kv t ih =>
    rw [List.cons_append, assocGet_cons, assocGet_cons]
    by_cases hk : kv.1 = k
    · rw [if_pos hk, if_pos hk, optOr_some]
    · rw [if_neg hk, if_neg hk, ih]

theorem assocGet_updateAssoc (d : List (String × String)) (k v k' : String) :
    assocGet (updateAssoc d k v) k' = if k = k' then some v else assocGet d k' := by
  induction d with
  | nil => rfl
  | cons kv t ih =>
    unfold updateAssoc
    by_cases hk : kv.1 = k
    · rw [if_pos hk, assocGet_cons, assocGet_cons]
      by_cases hkk' : k = k'
      · rw [if_pos hkk', if_pos hkk']
      · rw [if_neg hkk', if_neg hkk', if_neg (show ¬ kv.1 = k' from fun he => hkk' (hk.symm.trans he))]
    · rw [if_neg hk, assocGet_cons, assocGet_cons, ih]
      by_cases hkk' : k = k'
      · rw [if_pos hkk', if_pos hkk',
          if_neg (show ¬ kv.1 = k' from fun he => hk (he.trans hkk'.symm))]
      · rw [if_neg hkk', if_neg hkk']

theorem keys_updateAssoc (d : List (String × String)) (k v : String) :
    (updateAssoc d k v).map Prod.fst =
      if k ∈ d.map Prod.fst then d.map Prod.fst else d.map Prod.fst ++ [k] := by
  induction d with
  | nil => rfl
  | cons kv t ih =>
    unfold updateAssoc
    by_cases hk : kv.1 = k
    · rw [if_pos hk]
      simp [hk]
    · rw [if_neg hk]
      simp only [List.map_cons, List.mem_cons, ih]
      by_cases hmem : k ∈ t.map Prod.fst
      · rw [if_pos hmem, if_pos (Or.inr hmem)]
      · rw [if_neg hmem, if_neg (by push_neg; exact ⟨fun he => hk he.symm, hmem⟩), List.cons_append]

theorem keysNodup_updateAssoc {d : List (String × String)} (k v : String)
    (h : (d.map Prod.fst).Nodup) : ((updateAssoc d k v).map Prod.fst).Nodup := by
  rw [keys_updateAssoc]
  by_cases hmem : k ∈ d.map Prod.fst
  · rw [if_pos hmem]
    exact h
  · rw [if_neg hmem]
    simp [List.nodup_append, h, hmem]

theorem pyDict_foldl_nodup :
    ∀ (l d : List (String × String)), (d.map Prod.fst).Nodup →
      (((l.foldl (fun d kv => updateAssoc d kv.1 kv.2) d).map Prod.fst)).Nodup := by
  intro l
  induction l with
  | nil => intro d h; simpa using h
  | cons kv t ih =>
    intro d h
    simpa using ih _ (keysNodup_updateAssoc kv.1 kv.2 h)

theorem pyDict_nodup (l : List (String × String)) : ((pyDict l).map Prod.fst).Nodup :=
  pyDict_foldl_nodup l [] (by simp)

theorem assocGet_foldl :
    ∀ (l d : List (String × String)) (k : String),
      assocGet (l.foldl (fun d kv => updateAssoc d kv.1 kv.2) d) k =
        optOr (assocGet l.reverse k) (assocGet d k) := by
  intro l
  induction l with
  | nil => intro d k; rfl
  | cons kv t ih =>
    intro d k
    rw [List.foldl_cons, ih, List.reverse_cons, assocGet_append, optOr_assoc]
    congr 1
    rw [assocGet_updateAssoc, assocGet_cons]
    by_cases hk : kv.1 = k
    · rw [if_pos hk, if_pos hk, optOr_some]
    · rw [if_neg hk, if_neg hk,
        show assocGet ([] : List (String × String)) k = none from rfl, optOr_none]

theorem assocGet_pyDict (l : List (String × String)) (k : String) :
    assocGet (pyDict l) k = assocGet l.reverse k := by
  unfold pyDict
  rw [assocGet_foldl]
  rw [show assocGet [] k = none from rfl, optOr_none_right]

end Corax

namespace Corax

theorem assocGet_popKey_ne {d : List (String × String)} {k k' : String} (h : k' ≠ k) :
    assocGet (popKey d k) k' = assocGet d k' := by
  induction d with
  | nil => rfl
  | cons kv t ih =>
    unfold popKey
    by_cases hk : kv.1 = k
    · rw [if_pos hk, assocGet_cons, if_neg (fun he => h (he.symm.trans hk))]
    · rw [if_neg hk, assocGet_cons, assocGet_cons, ih]

theorem assocGet_popKey_self {d : List (String × String)} {k : String}
    (h : (d.map Prod.fst).Nodup) : assocGet (popKey d k) k = none := by
  induction d with
  | nil => rfl
  | cons kv t ih =>
    simp only [List.map_cons, List.nodup_cons] at h
    unfold popKey
    by_cases hk : kv.1 = k
    · rw [if_pos hk]
      exact assocGet_not_mem (hk ▸ h.1)
    · rw [if_neg hk, assocGet_cons, if_neg hk, ih h.2]

theorem keys_popKey_sublist (d : List (String × String)) (k : String) :
    ((popKey d k).map Prod.fst).Sublist (d.map Prod.fst) := by
  induction d with
  | nil => exact List.Sublist.refl _
  | cons kv t ih =>
    unfold popKey
    by_cases hk : kv.1 = k
    · rw [if_pos hk]
      exact (List.sublist_cons_self _ _)
    · rw [if_neg hk]
      simpa using ih.cons₂ kv.1

theorem popKey_nodup {d : List (String × String)} (k : String)
    (h : (d.map Prod.fst).Nodup) : ((popKey d k).map Prod.fst).Nodup :=
  h.sublist (keys_popKey_sublist d k)

theorem assocGet_dedupSeen :
    ∀ (l : List (String × String)) (seen : List String) (k : String),
      assocGet (dedupSeen seen l) k = if k ∈ seen then none else assocGet l k := by
  intro l
  induction l with
  | nil =>
    intro seen k
    by_cases hs : k ∈ seen
    · rw [if_pos hs]
      rfl
    · rw [if_neg hs]
      rfl
  | cons kv t ih =>
    intro seen k
    unfold dedupSeen
    by_cases hkv : kv.1 ∈ seen
    · rw [if_pos hkv, ih]
      by_cases hs : k ∈ seen
      · rw [if_pos hs, if_pos hs]
      · rw [if_neg hs, if_neg hs, assocGet_cons,
          if_neg (show ¬ kv.1 = k from fun he => hs (he ▸ hkv))]
    · rw [if_neg hkv, assocGet_cons, ih]
      by_cases hs : k ∈ seen
      · rw [if_pos hs,
          if_neg (show ¬ kv.1 = k from fun he => hkv (by rw [he]; exact hs)),
          if_pos (show k ∈ kv.1 :: seen from List.mem_cons_of_mem _ hs)]
      · rw [if_neg hs, assocGet_cons]
        by_cases hk : kv.1 = k
        · rw [if_pos hk, if_pos hk]
        · rw [if_neg hk, if_neg hk,
            if_neg (show ¬ k ∈ kv.1 :: seen by
              simp only [List.mem_cons]
              push_neg
              exact ⟨fun he => hk he.symm, hs⟩)]

theorem dedupSeen_keys :
    ∀ (l : List (String × String)) (seen : List String),
      ((dedupSeen seen l).map Prod.fst).Nodup ∧
        ∀ k ∈ (dedupSeen seen l).map Prod.fst, k ∉ seen := by
  intro l
  induction l with
  | nil => intro seen; exact ⟨List.nodup_nil, by simp [dedupSeen]⟩
  | cons kv t ih =>
    intro seen
    unfold dedupSeen
    by_cases hkv : kv.1 ∈ seen
    · rw [if_pos hkv]
      exact ih seen
    · rw [if_neg hkv]
      rcases ih (kv.1 :: seen) with ⟨hnd, hmem⟩
      refine ⟨?_, ?_⟩
      · simp only [List.map_cons, List.nodup_cons]
        exact ⟨fun hin => (hmem _ hin) (List.mem_cons_self _ _), hnd⟩
      · intro k hk
        simp only [List.map_cons, List.mem_cons] at hk
        rcases hk with he | hin
        · rw [he]
          exact hkv
        · exact fun hs => (hmem _ hin) (List.mem_cons_of_mem _ hs)

theorem assocGet_lastWins (l : List (String × String)) (k : String) :
    assocGet (lastWins l) k = assocGet l.reverse k := by
  unfold lastWins
  rw [assocGet_dedupSeen, if_neg (by simp)]

theorem lastWins_nodup (l : List (String × String)) :
    ((lastWins l).map Prod.fst).Nodup :=
  (dedupSeen_keys l.reverse []).1

theorem assocGet_filter_keyne (k0 : String) :
    ∀ (l : List (String × String)) (k : String),
      assocGet (l.filter (fun kv => kv.1 ≠ k0)) k =
        if k = k0 then none else assocGet l k := by
  intro l
  induction l with
  | nil =>
    intro k
    by_cases hk : k = k0
    · rw [if_pos hk]
      rfl
    · rw [if_neg hk]
      rfl
  | cons kv t ih =>
    intro k
    rw [List.filter_cons]
    by_cases hkv : kv.1 = k0
    · rw [if_neg (by simp [hkv]), ih, assocGet_cons]
      by_cases hk : k = k0
      · rw [if_pos hk, if_pos hk]
      · rw [if_neg hk, if_neg hk, if_neg (fun he => hk (he.symm.trans hkv))]
    · rw [if_pos (by simp [hkv]), assocGet_cons, assocGet_cons, ih]
      by_cases hk : kv.1 = k
      · rw [if_pos hk, if_pos hk, if_neg (fun he => hkv (hk.trans he))]
      · rw [if_neg hk, if_neg hk]

theorem filter_keys_nodup {l : List (String × String)} (q : String × String → Bool)
    (h : (l.map Prod.fst).Nodup) : ((l.filter q).map Prod.fst).Nodup :=
  h.sublist ((List.filter_sublist l).map Prod.fst)

theorem assocGet_removeFirst_ne :
    ∀ (l : List (String × String)) (a : String × String) (k : String), a.1 ≠ k →
      assocGet (removeFirst l a) k = assocGet l k := by
  intro l
  induction l with
  | nil => intro a k _; rfl
  | cons b t ih =>
    intro a k h
    unfold removeFirst
    by_cases hb : b = a
    · rw [if_pos hb, assocGet_cons, if_neg (show ¬ b.1 = k from fun he => h (hb ▸ he))]
    · rw [if_neg hb, assocGet_cons, assocGet_cons, ih a k h]

theorem keys_removeFirst_sublist (l : List (String × String)) (a : String × String) :
    ((removeFirst l a).map Prod.fst).Sublist (l.map Prod.fst) := by
  induction l with
  | nil => exact List.Sublist.refl _
  | cons b t ih =>
    unfold removeFirst
    by_cases hb : b = a
    · rw [if_pos hb]
      exact List.sublist_cons_self _ _
    · rw [if_neg hb]
      simpa using ih.cons₂ b.1

theorem perm_cons_removeFirst {l : List (String × String)} {a : String × String}
    (h : a ∈ l) : l.Perm (a :: removeFirst l a) := by
  induction l with
  | nil => exact absurd h (List.not_mem_nil a)
  | cons b t ih =>
    unfold removeFirst
    by_cases hb : b = a
    · rw [if_pos hb, hb]
    · rw [if_neg hb]
      rcases List.mem_cons.mp h with he | hmem
      · exact absurd he.symm hb
      · exact ((ih hmem).cons b).trans (List.Perm.swap _ _ _)

theorem assoc_perm :
    ∀ (l1 l2 : List (String × String)), (l1.map Prod.fst).Nodup → (l2.map Prod.fst).Nodup →
      (∀ k, assocGet l1 k = assocGet l2 k) → l1.Perm l2 := by
  intro l1
  induction l1 with
  | nil =>
    intro l2 _ _ hlook
    cases l2 with
    | nil => exact List.Perm.refl _
    | cons kv t =>
      have := hlook kv.1
      rw [assocGet_cons, if_pos rfl] at this
      exact absurd this.symm (by simp [assocGet])
  | cons kv t ih =>
    intro l2 h1 h2 hlook
    have hv : assocGet l2 kv.1 = some kv.2 := by
      rw [← hlook kv.1, assocGet_cons, if_pos rfl]
    have hmem : kv ∈ l2 := by
      have := mem_of_assocGet hv
      rwa [Prod.mk.eta] at this
    have hperm2 : l2.Perm (kv :: removeFirst l2 kv) := perm_cons_removeFirst hmem
    simp only [List.map_cons, List.nodup_cons] at h1
    have h2e : ((removeFirst l2 kv).map Prod.fst).Nodup :=
      h2.sublist (keys_removeFirst_sublist l2 kv)
    have hknotin : kv.1 ∉ (removeFirst l2 kv).map Prod.fst := by
      have hnd : ((kv :: removeFirst l2 kv).map Prod.fst).Nodup :=
        ((hperm2.map Prod.fst).nodup_iff).mp h2
      simp only [List.map_cons, List.nodup_cons] at hnd
      exact hnd.1
    have hlook' : ∀ k, assocGet t k = assocGet (removeFirst l2 kv) k := by
      intro k
      by_cases hk : k = kv.1
      · rw [hk, assocGet_not_mem h1.1, assocGet_not_mem hknotin]
      · have := hlook k
        rw [assocGet_cons, if_neg (fun he => hk he.symm)] at this
        rw [this, assocGet_removeFirst_ne l2 kv k (fun he => hk he.symm)]
    exact ((ih (removeFirst l2 kv) h1.2 h2e hlook').cons kv).trans hperm2.symm

end Corax

namespace Corax

/-! ### Relating the two `parse_qsl` modes -/

theorem utf8DecodeReplace_ne_nil (b : Nat) (t : List Nat) : utf8DecodeReplace (b :: t) ≠ [] := by
  unfold utf8DecodeReplace
  rw [List.length_cons]
  rcases hst : utf8Step b t with ⟨c, r2⟩
  simp [utf8DecodeGo, hst]

theorem unquoteGo_ne_nil (c : Char) (t : List Char) :
    unquoteGo (c :: t).length (c :: t) ≠ [] := by
  rw [List.length_cons]
  by_cases hc : c = '%'
  · subst hc
    rcases hbr : pctRun ('%' :: t) with ⟨bs, r⟩
    cases bs with
    | nil => simp [unquoteGo, hbr]
    | cons b bs2 =>
      have hne := utf8DecodeReplace_ne_nil b bs2
      simp [unquoteGo, hbr, hne]
  · simp [unquoteGo, hc]

theorem pyUnquote_ne_empty {cs : List Char} (h : cs ≠ []) : pyUnquote cs ≠ "" := by
  cases cs with
  | nil => exact absurd rfl h
  | cons c t =>
    unfold pyUnquote
    intro he
    exact unquoteGo_ne_nil c t (by simpa using congrArg String.data he)

theorem plusToSpace_ne_nil {cs : List Char} (h : cs ≠ []) : plusToSpace cs ≠ [] := by
  cases cs with
  | nil => exact absurd rfl h
  | cons c t => simp [plusToSpace]

theorem qslField_false_eq (f : List Char) :
    Option.filter (fun kv => kv.2 ≠ "") (qslField true f) = qslField false f := by
  unfold qslField
  by_cases hfe : f.isEmpty = true
  · rw [if_pos hfe, if_pos hfe]
    rfl
  · rw [if_neg hfe, if_neg hfe]
    rcases hsp : splitFirst '=' f with _ | ⟨nm, vl⟩
    · simp [Option.filter]
    · by_cases hve : vl.isEmpty = true
      · have hvnil : vl = [] := by
          cases vl
          · rfl
          · simp [List.isEmpty] at hve
        subst hvnil
        simp [Option.filter, pyUnquote, plusToSpace, unquoteGo]
      · have hvne : vl ≠ [] := by
          cases vl
          · simp [List.isEmpty] at hve
          · simp
        have hPne : pyUnquote (plusToSpace vl) ≠ "" :=
          pyUnquote_ne_empty (plusToSpace_ne_nil hvne)
        simp [hve, Option.filter, hPne]

theorem filterMap_qsl_eq :
    ∀ fs : List (List Char),
      (fs.filterMap (qslField true)).filter (fun kv => kv.2 ≠ "") =
        fs.filterMap (qslField false) := by
  intro fs
  induction fs with
  | nil => rfl
  | cons f fs ih =>
    rw [List.filterMap_cons, List.filterMap_cons]
    have hq := qslField_false_eq f
    rcases hqt : qslField true f with _ | kv
    · have hq0 : qslField false f = none := by
        rw [← hq, hqt]
        rfl
      rw [hq0]
      show List.filter (fun kv => kv.2 ≠ "") (List.filterMap (qslField true) fs) =
        List.filterMap (qslField false) fs
      exact ih
    · by_cases hval : kv.2 = ""
      · have hq0 : qslField false f = none := by
          rw [← hq, hqt]
          simp [Option.filter, hval]
        rw [hq0]
        show List.filter (fun kv => kv.2 ≠ "") (kv :: List.filterMap (qslField true) fs) =
          List.filterMap (qslField false) fs
        rw [List.filter_cons, if_neg (by simp [hval]), ih]
      · have hq0 : qslField false f = some kv := by
          rw [← hq, hqt]
          simp [Option.filter, hval]
        rw [hq0]
        show List.filter (fun kv => kv.2 ≠ "") (kv :: List.filterMap (qslField true) fs) =
          kv :: List.filterMap (qslField false) fs
        rw [List.filter_cons, if_pos (by simp [hval]), ih]

theorem parse_qsl_filter (qs : String) :
    (parse_qsl_keep_blanks qs).filter (fun kv => kv.2 ≠ "") = parse_qsl qs :=
  filterMap_qsl_eq (splitOnChar '&' qs.data)

/-- Claim C3 (amended): the check string the validator builds equals the one
described by the amended claim — URL-decoded pairs with blank values dropped
and only the last value of each repeated key kept, the `hash` field removed,
sorted ascending by key, rendered as `key=value` and joined by newlines. -/
theorem C3_check_string : ∀ p, data_check_string p = amendedCheckString p := by
  intro p
  unfold data_check_string amendedCheckString pySorted restPairs parsedData
  rw [parse_qsl_filter]
  have hndX : ((popKey (pyDict (parse_qsl p)) "hash").map Prod.fst).Nodup :=
    popKey_nodup _ (pyDict_nodup (parse_qsl p))
  have hndY : (((lastWins (parse_qsl p)).filter (fun kv => kv.1 ≠ "hash")).map Prod.fst).Nodup :=
    filter_keys_nodup _ (lastWins_nodup (parse_qsl p))
  have hlook : ∀ k, assocGet (popKey (pyDict (parse_qsl p)) "hash") k =
      assocGet ((lastWins (parse_qsl p)).filter (fun kv => kv.1 ≠ "hash")) k := by
    intro k
    rw [assocGet_filter_keyne]
    by_cases hk : k = "hash"
    · rw [if_pos hk, hk, assocGet_popKey_self (pyDict_nodup (parse_qsl p))]
    · rw [if_neg hk, assocGet_popKey_ne hk, assocGet_pyDict, assocGet_lastWins]
  have hperm : (popKey (pyDict (parse_qsl p)) "hash").Perm
      ((lastWins (parse_qsl p)).filter (fun kv => kv.1 ≠ "hash")) :=
    assoc_perm _ _ hndX hndY hlook
  haveI : IsTotal (String × String) pairLE := ⟨pairLE_total⟩
  haveI : IsTrans (String × String) pairLE := ⟨pairLE_trans⟩
  haveI : IsAntisymm (String × String) pairLE := ⟨pairLE_antisymm⟩
  haveI : IsTotal (String × String) keyLE := ⟨keyLE_total⟩
  haveI : IsTrans (String × String) keyLE := ⟨keyLE_trans⟩
  have hs1 := List.sorted_insertionSort pairLE (popKey (pyDict (parse_qsl p)) "hash")
  have hs2k := List.sorted_insertionSort keyLE
    ((lastWins (parse_qsl p)).filter (fun kv => kv.1 ≠ "hash"))
  have hpermY := List.perm_insertionSort keyLE
    ((lastWins (parse_qsl p)).filter (fun kv => kv.1 ≠ "hash"))
  have hndY' : ((List.insertionSort keyLE
      ((lastWins (parse_qsl p)).filter (fun kv => kv.1 ≠ "hash"))).map Prod.fst).Nodup :=
    ((hpermY.map Prod.fst).nodup_iff).mpr hndY
  have hpairwise_ne : (List.insertionSort keyLE
      ((lastWins (parse_qsl p)).filter (fun kv => kv.1 ≠ "hash"))).Pairwise
      (fun a b => a.1 ≠ b.1) :=
    List.pairwise_map.mp hndY'
  have hs2 : List.Sorted pairLE (List.insertionSort keyLE
      ((lastWins (parse_qsl p)).filter (fun kv => kv.1 ≠ "hash"))) :=
    (List.Pairwise.and hs2k hpairwise_ne).imp (fun h => keyLE_ne_pairLE h.1 h.2)
  have hperm12 := ((List.perm_insertionSort pairLE
    (popKey (pyDict (parse_qsl p)) "hash")).trans hperm).trans hpermY.symm
  exact congrArg joinKV (List.eq_of_perm_of_sorted hperm12 hs1 hs2)

end Corax
